import Mathlib

/-!
Verification development for the `gdbt` CLI (`src/gdbt/cli.py`).

The file embeds the control flow of the three CLI commands (`version`,
`plan`, `apply`) from `src/gdbt/cli.py` into Lean. The core modules the
CLI calls (`gdbt.state.state`, `gdbt.state.diff`, `gdbt.state.plan`,
`gdbt.stencil.load`, `gdbt.provider.provider`) are not part of the
sources; where their behaviour decides a property they are modelled from
the specification, with a doc comment marking each such definition.

Python dictionaries are embedded as association lists with unique keys,
with `dinsert` giving the replace-or-append semantics of dictionary
assignment and `dupdate` the semantics of `dict.update`.
-/

namespace GDBT

/-- A resource: a provider-type tag and an opaque content document
(`gdbt` resources carry more metadata; only these two fields are
relevant to the CLI-level claims). Resource identifiers are embedded
as strings (the composite key is already flattened by resolution). -/
structure Resource where
  provider : String
  content : String
deriving DecidableEq

/-- A Python dictionary from resource id to resource, as an association
list (insertion order preserved, keys unique when built by `dinsert`). -/
abbrev Dict := List (String × Resource)

/-- Dictionary assignment `d[k] = v`: replace the first binding of `k`
in place, or append a new binding. -/
def dinsert : Dict → String → Resource → Dict
  | [], k, v => [(k, v)]
  | (k1, v1) :: rest, k, v =>
    if k1 = k then (k, v) :: rest else (k1, v1) :: dinsert rest k v

/-- Python `d.update(other)`: assign every binding of `other` into `d`,
overwriting existing keys silently. This is the aggregation step used by
the resolution loops in `plan` and `apply` (cli.py lines 52-60 and
114-122): `resources.update(stencil_resources)`. -/
def dupdate (d other : Dict) : Dict :=
  other.foldl (fun acc p => dinsert acc p.1 p.2) d

/-- The keys of a dictionary, in order. -/
def dkeys (d : Dict) : List String :=
  d.map (fun p => p.1)

/-- Dictionary lookup (first binding wins; unique on real dictionaries). -/
def dlookup (k : String) : Dict → Option Resource
  | [] => none
  | (k1, v1) :: rest => if k1 = k then some v1 else dlookup k rest

/-- The domain-error taxonomy of `gdbt.errors` as it matters to the CLI:
every error raised by the core derives from `gdbt.errors.Error` and is
caught by the one `except` clause of each command. -/
inductive Err
  | config
  | resolution
  | state
  | provider
deriving DecidableEq

/-- The per-resource outcome variants of the diff engine. -/
inductive Outcome
  | create (r : Resource)
  | delete (r : Resource)
  | update (old new : Resource)
  | noop (r : Resource)
deriving DecidableEq

def Outcome.isNoop : Outcome → Bool
  | .noop _ => true
  | _ => false

def Outcome.isDelete : Outcome → Bool
  | .delete _ => true
  | _ => false

/-- The resource a non-noop outcome will act through (its provider tag
is what provider validation checks). -/
def Outcome.target : Outcome → Resource
  | .create r => r
  | .delete r => r
  | .update _ b => b
  | .noop r => r

/-- Modelled from the spec: `StateDiff(current, desired)` classifies
every id in the union of the two key sets: current-only is Delete,
desired-only is Create, both is Update when content differs else NoOp
(`gdbt/state/diff.py` is not among the sources). -/
def classify (cur des : Dict) (k : String) : Option Outcome :=
  match dlookup k cur, dlookup k des with
  | none, some r => some (.create r)
  | some r, none => some (.delete r)
  | some a, some b => some (if a = b then .noop a else .update a b)
  | none, none => none

/-- The union of the two key sets, current first, in order. -/
def unionKeys (cur des : Dict) : List String :=
  dkeys cur ++ (dkeys des).filter (fun k => decide (k ∉ dkeys cur))

/-- Modelled from the spec: the diff mapping, one outcome per id in the
union of the key sets of the two states. -/
def stateDiff (cur des : Dict) : List (String × Outcome) :=
  (unionKeys cur des).filterMap (fun k => (classify cur des k).map (fun o => (k, o)))

/-- The non-noop entries of a diff: the outcomes a Plan captures
(Modelled from the spec: `Plan(diff)` captures the outcomes to execute,
NoOp excluded; `gdbt/state/plan.py` is not among the sources). -/
def planOf (d : List (String × Outcome)) : List (String × Outcome) :=
  d.filter (fun p => !p.2.isNoop)

/-- Modelled from the spec: `state_diff.outcomes(providers)` filters the
diff down to actionable outcomes and validates that every acted-on
resource declares a configured provider, raising a configuration error
otherwise. Its size is the `changes` count of cli.py lines 74 and 136. -/
def outcomes (provs : List String) (d : List (String × Outcome)) :
    Except Err (List (String × Outcome)) :=
  if (planOf d).all (fun p => provs.contains p.2.target.provider) then
    .ok (planOf d)
  else
    .error .config

/-- Observable events of one command invocation, in order: console
output (`render` marks the change-list rendering, `print` every other
message), the confirmation prompt, the backend-mutating
resource-provider calls, and the state push (which records the state it
is given). -/
inductive Event
  | print (s : String)
  | render (s : String)
  | resolve (key : String)
  | stateLoad
  | create (id : String)
  | update (id : String)
  | delete (id : String)
  | prompt
  | push (s : Dict)
deriving DecidableEq

/-- Whether an event is a backend mutation (a resource-provider
create/update/delete call). -/
def Event.isMutation : Event → Bool
  | .create _ => true
  | .update _ => true
  | .delete _ => true
  | _ => false

/-- Whether an event is a state push. -/
def Event.isPush : Event → Bool
  | .push _ => true
  | _ => false

/-- The provider call a planned outcome performs (noop outcomes are
never planned and perform none). -/
def opEvent : String × Outcome → Option Event
  | (k, .create _) => some (.create k)
  | (k, .update _ _) => some (.update k)
  | (k, .delete _) => some (.delete k)
  | (_, .noop _) => none

/-- The entry a diff entry contributes to the applied state, given
whether the provider call for its id succeeded: carried-over noops keep
their resource, successful creates and updates record the new resource,
failed creates and updates record nothing, successful deletes remove
the resource and failed deletes keep the prior one. -/
def appliedEntry (okf : String → Bool) (p : String × Outcome) :
    Option (String × Resource) :=
  match p.2 with
  | .noop r => some (p.1, r)
  | .create r => if okf p.1 then some (p.1, r) else none
  | .update _ b => if okf p.1 then some (p.1, b) else none
  | .delete r => if okf p.1 then none else some (p.1, r)

/-- Modelled from the spec: `plan.apply(providers)` executes every
planned (non-noop) outcome through its resource provider, creates and
updates before deletes, recovers each per-resource provider failure
locally instead of raising, and returns the applied state together with
the list of failed resource ids (`gdbt/state/plan.py` is not among the
sources; `okf` says which per-resource provider calls succeed).
Provider lookup was already validated by `outcomes`. -/
def planApply (okf : String → Bool) (d : List (String × Outcome)) :
    List Event × Dict × List String :=
  let ordered := (planOf d).filter (fun p => !p.2.isDelete) ++
    (planOf d).filter (fun p => p.2.isDelete)
  (ordered.filterMap opEvent,
   d.filterMap (appliedEntry okf),
   ordered.filterMap (fun p => if okf p.1 then none else some p.1))

/-- The number of resources actually modified by an apply pass: the
planned outcomes whose provider call succeeded. -/
def modifiedCount (okf : String → Bool) (d : List (String × Outcome)) : Nat :=
  ((planOf d).filter (fun p => okf p.1)).length

/-- The part of the loaded configuration the CLI consumes directly:
the names of the configured providers (evaluations, lookups and the
state configuration are passed opaquely to the core). -/
structure Config where
  providers : List String
deriving DecidableEq

/-- The environment one `plan` or `apply` run executes in: the result of
each fallible collaborator call. `loadResources` pairs each stencil key
with the result its `resolve` call will produce (resolution itself lives
in `gdbt/stencil`, outside the sources). -/
structure PipelineEnv where
  loadConfig : Except Err Config
  loadResources : Except Err (List (String × Except Err Dict))
  loadState : Except Err Dict

/-- The resolution loop of cli.py lines 52-60 and 114-122:
`resources = {}` then, per stencil, `resources.update(value.resolve(...))`;
a resolution error aborts the loop, a duplicate id is overwritten
silently by `dict.update`. -/
def resolveLoop (acc : Dict) :
    List (String × Except Err Dict) → List Event × Except Err Dict
  | [] => ([], .ok acc)
  | (k, r) :: rest =>
    match r with
    | .error e => ([.resolve k], .error e)
    | .ok d =>
      (.resolve k :: (resolveLoop (dupdate acc d) rest).1,
       (resolveLoop (dupdate acc d) rest).2)

/-- Modelled from the spec: `State(resources)` wraps the mapping into an
immutable snapshot, rejecting duplicate ResourceIDs as a construction
error (`gdbt/state/state.py` is not among the sources). A Python
dictionary argument can never carry duplicates, so on CLI inputs the
error branch is dead (proved below). -/
def mkState (d : Dict) : Except Err Dict :=
  if (dkeys d).Nodup then .ok d else .error .state

/-- What the shared pipeline of both commands produces when no error is
raised: the provider names, the desired and current states, the diff,
and the validated actionable outcomes whose count is `changes`. -/
structure PipeOut where
  providers : List String
  desired : Dict
  current : Dict
  diff : List (String × Outcome)
  ocs : List (String × Outcome)
deriving DecidableEq

/-- The pipeline of the `plan` command, cli.py lines 44-74: load config,
load stencils, resolve each stencil accumulating into one dictionary,
build the desired state, load the current state, compute the diff, and
compute the validated outcomes whose count is `changes`. Any
`gdbt.errors.Error` raised along the way aborts the pipeline. -/
def pipelinePlan (env : PipelineEnv) : List Event × Except Err PipeOut :=
  match env.loadConfig with
  | .error e => ([], .error e)
  | .ok config =>
    match env.loadResources with
    | .error e => ([], .error e)
    | .ok stencils =>
      match resolveLoop [] stencils with
      | (evs, .error e) => (evs, .error e)
      | (evs, .ok resources) =>
        match mkState resources with
        | .error e => (evs, .error e)
        | .ok desired =>
          match env.loadState with
          | .error e => (evs ++ [.stateLoad], .error e)
          | .ok current =>
            let d := stateDiff current desired
            match outcomes config.providers d with
            | .error e => (evs ++ [.stateLoad], .error e)
            | .ok ocs =>
              (evs ++ [.stateLoad],
               .ok ⟨config.providers, desired, current, d, ocs⟩)

/-- The pipeline of the `apply` command up to the `changes` count,
cli.py lines 106-136: textually the same steps as the `plan` pipeline
(load config, load stencils, resolve and accumulate, build desired
state, load current state, diff, validated outcomes). -/
def pipelineApply (env : PipelineEnv) : List Event × Except Err PipeOut :=
  match env.loadConfig with
  | .error e => ([], .error e)
  | .ok config =>
    match env.loadResources with
    | .error e => ([], .error e)
    | .ok stencils =>
      match resolveLoop [] stencils with
      | (evs, .error e) => (evs, .error e)
      | (evs, .ok resources) =>
        match mkState resources with
        | .error e => (evs, .error e)
        | .ok desired =>
          match env.loadState with
          | .error e => (evs ++ [.stateLoad], .error e)
          | .ok current =>
            let d := stateDiff current desired
            match outcomes config.providers d with
            | .error e => (evs ++ [.stateLoad], .error e)
            | .ok ocs =>
              (evs ++ [.stateLoad],
               .ok ⟨config.providers, desired, current, d, ocs⟩)

/-- The error report of the `except` clauses (cli.py lines 82-83 and
167-168). -/
def errMsg (e : Err) : String :=
  match e with
  | .config => "ERROR: configuration error"
  | .resolution => "ERROR: resolution error"
  | .state => "ERROR: state error"
  | .provider => "ERROR: provider error"

def upToDateMsg : String := "Dashboards are up to date!"

def plannedMsg : String := "Planned changes:"

def pendingMsg : String := "Pending changes:"

def applyHintMsg : String := "Run gdbt apply to apply these changes"

/-- The final report of a completed apply (cli.py lines 164-166); the
count printed is the `changes` value computed before the apply pass.
The elapsed wall-clock duration also printed there is not modelled. -/
def doneMsg (n : Nat) : String :=
  "Done! Modified " ++ toString n ++ " resources"

/-- Modelled from the spec: the diff rendering consumed read-only by the
console report; its text is outside the core, only its presence or
absence in the output matters here. -/
def renderDiff (d : List (String × Outcome)) : String :=
  "render " ++ String.intercalate ", " (d.map (fun p => p.1))

/-- The `plan` command, cli.py lines 41-84: run the pipeline; on a
domain error report it and exit 1; on zero changes report up to date and
return; otherwise render the planned changes and return. A normal
return exits 0. -/
def planCmd (env : PipelineEnv) : List Event × Nat :=
  match pipelinePlan env with
  | (evs, .error e) => (evs ++ [.print (errMsg e)], 1)
  | (evs, .ok out) =>
    if out.ocs.length = 0 then
      (evs ++ [.print upToDateMsg], 0)
    else
      (evs ++ [.print plannedMsg, .render (renderDiff out.diff),
        .print applyHintMsg], 0)

/-- The environment of one `apply` run: the pipeline collaborators plus
the flag and prompt answer, which per-resource provider calls succeed
during the apply pass, and the result of the state push. -/
structure ApplyEnv extends PipelineEnv where
  autoApprove : Bool
  userConfirms : Bool
  execOk : String → Bool
  pushResult : Except Err Unit

/-- The tail of the `apply` command once the run is confirmed, cli.py
lines 149-166: `Plan(state_diff)` then `plan.apply(providers)`, then
`gdbt.state.state.push` with the applied state, then the final report.
A push failure is caught by the same `except` clause and exits 1. -/
def afterConfirm (env : ApplyEnv) (evs : List Event) (out : PipeOut) :
    List Event × Nat :=
  let ap := planApply env.execOk out.diff
  match env.pushResult with
  | .error e => (evs ++ ap.1 ++ [.push ap.2.1, .print (errMsg e)], 1)
  | .ok _ =>
    (evs ++ ap.1 ++ [.push ap.2.1, .print (doneMsg out.ocs.length)], 0)

/-- The `apply` command, cli.py lines 103-169: run the pipeline; on a
domain error report it and exit 1; on zero changes report up to date and
return; otherwise render the pending changes, then (unless auto-approve)
prompt for confirmation — declining raises `click.Abort`, which click
maps to exit 1 — and finally run the confirmed tail. -/
def applyCmd (env : ApplyEnv) : List Event × Nat :=
  match pipelineApply env.toPipelineEnv with
  | (evs, .error e) => (evs ++ [.print (errMsg e)], 1)
  | (evs, .ok out) =>
    if out.ocs.length = 0 then
      (evs ++ [.print upToDateMsg], 0)
    else
      let evs2 := evs ++ [.print pendingMsg, .render (renderDiff out.diff)]
      if env.autoApprove then
        afterConfirm env evs2 out
      else if env.userConfirms then
        afterConfirm env (evs2 ++ [.prompt]) out
      else
        (evs2 ++ [.prompt], 1)

/-- The `version` command, cli.py lines 27-30: print the version string
and return (exit 0). -/
def versionCmd (v : String) : List Event × Nat :=
  ([.print ("GDBT version " ++ v)], 0)

/-! Concrete fixtures used by witnesses and counterexamples. -/

def ra : Resource := ⟨"grafana", "alpha"⟩

def rb : Resource := ⟨"grafana", "beta"⟩

def r1 : Resource := ⟨"grafana", "one"⟩

def r2 : Resource := ⟨"grafana", "two"⟩

/-- A run whose diff is two creates, auto-approved, with every provider
call and the push succeeding. -/
def envTwoCreates : ApplyEnv where
  loadConfig := .ok ⟨["grafana"]⟩
  loadResources := .ok [("s", .ok [("s.a", ra), ("s.b", rb)])]
  loadState := .ok []
  autoApprove := true
  userConfirms := true
  execOk := fun _ => true
  pushResult := .ok ()

/-- The same run, but the provider call for `s.b` fails. -/
def envPartialFail : ApplyEnv :=
  { envTwoCreates with execOk := fun id => id == "s.a" }

/-- The same run, not auto-approved, with the user declining. -/
def envDecline : ApplyEnv :=
  { envTwoCreates with autoApprove := false, userConfirms := false }

/-- The same run, not auto-approved, with the user confirming. -/
def envConfirm : ApplyEnv :=
  { envTwoCreates with autoApprove := false, userConfirms := true }

/-- A run whose configuration loading raises a ConfigError. -/
def envPreErr : ApplyEnv :=
  { envTwoCreates with loadConfig := .error .config }

/-- A run whose desired state equals its current state: zero changes. -/
def envZero : ApplyEnv :=
  { envTwoCreates with
    loadResources := .ok [("s", .ok [("s.a", ra)])]
    loadState := .ok [("s.a", ra)] }

/-- Whether a collaborator call raised a `gdbt.errors.Error`. -/
def isErr {α : Type} : Except Err α → Bool
  | .error _ => true
  | .ok _ => false

/-- The conditions under which an `apply` run raises (or has click
raise) an error it exits 1 on: a pipeline error, a declined
confirmation, or a failed state push — but never a per-resource
provider failure recovered inside the apply pass. -/
def applyRaised (env : ApplyEnv) : Bool :=
  match (pipelineApply env.toPipelineEnv).2 with
  | .error _ => true
  | .ok out =>
    if out.ocs.length = 0 then false
    else if env.autoApprove then isErr env.pushResult
    else if env.userConfirms then isErr env.pushResult
    else true

/-- The desired state of `envTwoCreates` and its variants. -/
def desiredTwo : Dict := [("s.a", ra), ("s.b", rb)]

/-- The pipeline output of `envTwoCreates` and its variants. -/
def outTwo : PipeOut :=
  ⟨["grafana"], desiredTwo, [], stateDiff [] desiredTwo,
   planOf (stateDiff [] desiredTwo)⟩

/-- The pipeline output of `envZero`. -/
def outZero : PipeOut :=
  ⟨["grafana"], [("s.a", ra)], [("s.a", ra)],
   [("s.a", Outcome.noop ra)], []⟩

/-! Dictionary lemmas. -/

theorem dkeys_dinsert (d : Dict) (k : String) (v : Resource) :
    dkeys (dinsert d k v) = if k ∈ dkeys d then dkeys d else dkeys d ++ [k] := by
  induction d with
  | nil => simp [dinsert, dkeys]
  | cons p rest ih =>
    obtain ⟨k1, v1⟩ := p
    by_cases h : k1 = k
    · subst h
      simp [dinsert, dkeys]
    · simp only [dinsert, if_neg h, dkeys, List.map_cons] at ih ⊢
      rw [ih]
      by_cases hm : k ∈ List.map (fun p : String × Resource => p.1) rest
      · simp [hm, Ne.symm h, List.mem_cons]
      · simp [hm, Ne.symm h, List.mem_cons]

theorem nodup_dinsert (d : Dict) (k : String) (v : Resource)
    (h : (dkeys d).Nodup) : (dkeys (dinsert d k v)).Nodup := by
  rw [dkeys_dinsert]
  by_cases hm : k ∈ dkeys d
  · simpa [hm] using h
  · simp only [hm, if_false]
    simpa [List.nodup_append] using ⟨h, hm⟩

theorem nodup_dupdate (other : List (String × Resource)) :
    ∀ d : Dict, (dkeys d).Nodup → (dkeys (dupdate d other)).Nodup := by
  induction other with
  | nil => intro d h; simpa [dupdate] using h
  | cons p rest ih =>
    intro d h
    have : dupdate d (p :: rest) = dupdate (dinsert d p.1 p.2) rest := by
      simp [dupdate]
    rw [this]
    exact ih _ (nodup_dinsert d p.1 p.2 h)

theorem dlookup_dinsert_self (d : Dict) (k : String) (v : Resource) :
    dlookup k (dinsert d k v) = some v := by
  induction d with
  | nil => simp [dinsert, dlookup]
  | cons p rest ih =>
    obtain ⟨k1, v1⟩ := p
    by_cases h : k1 = k
    · subst h
      simp [dinsert, dlookup]
    · simp [dinsert, dlookup, h, ih]

theorem dlookup_dinsert_ne (d : Dict) (k k1 : String) (v : Resource)
    (h : k1 ≠ k) : dlookup k (dinsert d k1 v) = dlookup k d := by
  induction d with
  | nil => simp [dinsert, dlookup, h]
  | cons p rest ih =>
    obtain ⟨k2, v2⟩ := p
    by_cases h2 : k2 = k1
    · subst h2
      simp [dinsert, dlookup, h]
    · simp only [dinsert, if_neg h2]
      by_cases h3 : k2 = k
      · simp [dlookup, h3]
      · simp [dlookup, h3, ih]

theorem dlookup_dupdate_of_notmem (other : List (String × Resource)) :
    ∀ d : Dict, ∀ k : String, k ∉ dkeys other →
      dlookup k (dupdate d other) = dlookup k d := by
  induction other with
  | nil => intro d k _; simp [dupdate]
  | cons p rest ih =>
    intro d k hk
    simp only [dkeys, List.map_cons, List.mem_cons] at hk
    push_neg at hk
    have : dupdate d (p :: rest) = dupdate (dinsert d p.1 p.2) rest := by
      simp [dupdate]
    rw [this, ih _ k (by simpa [dkeys] using hk.2)]
    exact dlookup_dinsert_ne d k p.1 p.2 fun h => hk.1 h.symm

theorem dlookup_dupdate_of_mem (other : List (String × Resource)) :
    ∀ d : Dict, ∀ k : String, ∀ v : Resource, (dkeys other).Nodup →
      dlookup k other = some v → dlookup k (dupdate d other) = some v := by
  induction other with
  | nil => intro d k v _ h; simp [dlookup] at h
  | cons p rest ih =>
    intro d k v hnd hl
    obtain ⟨k1, v1⟩ := p
    have hstep : dupdate d ((k1, v1) :: rest) = dupdate (dinsert d k1 v1) rest := by
      simp [dupdate]
    simp only [dkeys, List.map_cons, List.nodup_cons] at hnd
    by_cases h : k1 = k
    · subst h
      simp only [dlookup, if_pos rfl] at hl
      rw [hstep, dlookup_dupdate_of_notmem rest _ k1 (by simpa [dkeys] using hnd.1),
        dlookup_dinsert_self d k1 v1]
      exact hl
    · simp only [dlookup, if_neg h] at hl
      rw [hstep]
      exact ih _ k v hnd.2 hl

/-! Resolution-loop and pipeline lemmas. -/

theorem resolveLoop_events (l : List (String × Except Err Dict)) :
    ∀ acc : Dict, ∀ e ∈ (resolveLoop acc l).1, ∃ k, e = Event.resolve k := by
  induction l with
  | nil => intro acc e he; simp [resolveLoop] at he
  | cons p rest ih =>
    intro acc e he
    obtain ⟨k, r⟩ := p
    cases r with
    | error err =>
      simp only [resolveLoop, List.mem_singleton] at he
      exact ⟨k, he⟩
    | ok d =>
      simp only [resolveLoop, List.mem_cons] at he
      rcases he with h | h
      · exact ⟨k, h⟩
      · exact ih _ e h

theorem resolveLoop_ok_nodup (l : List (String × Except Err Dict)) :
    ∀ acc m : Dict, (dkeys acc).Nodup →
      (resolveLoop acc l).2 = .ok m → (dkeys m).Nodup := by
  induction l with
  | nil =>
    intro acc m h he
    simp only [resolveLoop] at he
    cases he
    exact h
  | cons p rest ih =>
    intro acc m h he
    obtain ⟨k, r⟩ := p
    cases r with
    | error err => simp [resolveLoop] at he
    | ok d =>
      simp only [resolveLoop] at he
      exact ih _ m (nodup_dupdate d acc h) he

/-- On any dictionary the resolution loop produces, the `State`
construction-time duplicate check never fires. -/
theorem mkState_of_resolveLoop {stencils : List (String × Except Err Dict)}
    {m : Dict} (h : (resolveLoop [] stencils).2 = .ok m) :
    mkState m = .ok m := by
  have := resolveLoop_ok_nodup stencils [] m (by simp [dkeys]) h
  simp [mkState, this]

theorem pipelinePlan_events (env : PipelineEnv) :
    ∀ e ∈ (pipelinePlan env).1,
      (∃ k, e = Event.resolve k) ∨ e = Event.stateLoad := by
  intro e he
  rcases hc : env.loadConfig with err | config
  · simp [pipelinePlan, hc] at he
  rcases hr : env.loadResources with err | stencils
  · simp [pipelinePlan, hc, hr] at he
  rcases hl : resolveLoop [] stencils with ⟨evs, r⟩
  have hev : ∀ x ∈ evs, ∃ k, x = Event.resolve k := by
    have h2 := resolveLoop_events stencils []
    rw [hl] at h2
    exact h2
  rcases r with err | resources
  · simp only [pipelinePlan, hc, hr, hl] at he
    exact Or.inl (hev e he)
  rcases hm : mkState resources with err | desired
  · simp only [pipelinePlan, hc, hr, hl, hm] at he
    exact Or.inl (hev e he)
  rcases hs : env.loadState with err | current
  · simp only [pipelinePlan, hc, hr, hl, hm, hs, List.mem_append,
      List.mem_singleton] at he
    rcases he with h | h
    · exact Or.inl (hev e h)
    · exact Or.inr h
  rcases ho : outcomes config.providers (stateDiff current desired) with err | ocs
  · simp only [pipelinePlan, hc, hr, hl, hm, hs, ho, List.mem_append,
      List.mem_singleton] at he
    rcases he with h | h
    · exact Or.inl (hev e h)
    · exact Or.inr h
  · simp only [pipelinePlan, hc, hr, hl, hm, hs, ho, List.mem_append,
      List.mem_singleton] at he
    rcases he with h | h
    · exact Or.inl (hev e h)
    · exact Or.inr h

theorem pipelinePlan_events_benign (env : PipelineEnv) :
    ∀ e ∈ (pipelinePlan env).1,
      e.isMutation = false ∧ e.isPush = false ∧ e ≠ Event.prompt := by
  intro e he
  rcases pipelinePlan_events env e he with ⟨k, hk⟩ | h
  · subst hk; simp [Event.isMutation, Event.isPush]
  · subst h; simp [Event.isMutation, Event.isPush]

theorem outcomes_ok_eq {ps : List String} {d l : List (String × Outcome)}
    (h : outcomes ps d = .ok l) : l = planOf d := by
  unfold outcomes at h
  split at h
  · injection h with h2
    exact h2.symm
  · simp at h

theorem planApply_events (okf : String → Bool) (d : List (String × Outcome)) :
    ∀ e ∈ (planApply okf d).1, e.isMutation = true := by
  intro e he
  simp only [planApply, List.mem_filterMap, List.mem_append] at he
  rcases he with ⟨p, _, hsome⟩
  obtain ⟨k, o⟩ := p
  cases o <;> simp only [opEvent] at hsome <;>
    first
    | (cases hsome; simp [Event.isMutation])
    | exact absurd hsome (by simp)

theorem planApply_no_failures {okf : String → Bool}
    {d : List (String × Outcome)} (h : (planApply okf d).2.2 = []) :
    (planOf d).filter (fun p => okf p.1) = planOf d := by
  simp only [planApply] at h
  rw [List.filterMap_eq_nil_iff] at h
  apply List.filter_eq_self.mpr
  intro p hp
  have hp2 : p ∈ (planOf d).filter (fun p => !p.2.isDelete) ++
      (planOf d).filter (fun p => p.2.isDelete) := by
    by_cases hd : p.2.isDelete = true
    · exact List.mem_append_right _ (List.mem_filter.mpr ⟨hp, by simp [hd]⟩)
    · exact List.mem_append_left _ (List.mem_filter.mpr ⟨hp, by simp [hd]⟩)
  have h3 := h p hp2
  by_cases hok : okf p.1 = true
  · simpa using hok
  · simp [hok] at h3

/-- The two pipelines are the same function (the code blocks are
textually identical); stated once here so later lemmas transfer. -/
theorem pipelineApply_eq (env : PipelineEnv) :
    pipelineApply env = pipelinePlan env := rfl

theorem pipelineApply_events_benign (env : PipelineEnv) :
    ∀ e ∈ (pipelineApply env).1,
      e.isMutation = false ∧ e.isPush = false ∧ e ≠ Event.prompt := by
  rw [pipelineApply_eq]
  exact pipelinePlan_events_benign env

/-- A successful pipeline's validated outcomes are exactly the non-noop
entries of its diff. -/
theorem pipelinePlan_ok_ocs (env : PipelineEnv) (out : PipeOut)
    (h : (pipelinePlan env).2 = .ok out) : out.ocs = planOf out.diff := by
  rcases hc : env.loadConfig with err | config
  · simp [pipelinePlan, hc] at h
  rcases hr : env.loadResources with err | stencils
  · simp [pipelinePlan, hc, hr] at h
  rcases hl : resolveLoop [] stencils with ⟨evs, r⟩
  rcases r with err | resources
  · simp [pipelinePlan, hc, hr, hl] at h
  rcases hm : mkState resources with err | desired
  · simp [pipelinePlan, hc, hr, hl, hm] at h
  rcases hs : env.loadState with err | current
  · simp [pipelinePlan, hc, hr, hl, hm, hs] at h
  rcases ho : outcomes config.providers (stateDiff current desired) with err | ocs
  · simp [pipelinePlan, hc, hr, hl, hm, hs, ho] at h
  · simp only [pipelinePlan, hc, hr, hl, hm, hs, ho, Except.ok.injEq] at h
    subst h
    exact outcomes_ok_eq ho

/-- The apply pass never emits a prompt event. -/
theorem planApply_no_prompt (okf : String → Bool)
    (d : List (String × Outcome)) : Event.prompt ∉ (planApply okf d).1 := by
  intro hmem
  have h := planApply_events okf d _ hmem
  simp [Event.isMutation] at h

/-- The confirmed tail of apply never emits a prompt beyond those
already in its prefix. -/
theorem afterConfirm_no_prompt (env : ApplyEnv) (evs2 : List Event)
    (out : PipeOut) (h : Event.prompt ∉ evs2) :
    Event.prompt ∉ (afterConfirm env evs2 out).1 := by
  rcases hq : env.pushResult with e | u <;>
    simp [afterConfirm, hq, h, planApply_no_prompt]

/-! Claim theorems. -/

/-- Claim C1 (counterexample): two stencils resolving to the same
ResourceID do not make the aggregation step fail with a
ResolutionError: the loop of cli.py lines 52-60 merges with
`dict.update`, so the duplicate id `dash` is silently overwritten with
the second stencil's resource and the loop returns successfully. -/
theorem c1_duplicate_overwrite_counterexample :
    (resolveLoop [] [("s1", .ok [("dash", r1)]), ("s2", .ok [("dash", r2)])]).2
        = .ok [("dash", r2)] ∧
    r1 ≠ r2 ∧
    (resolveLoop [] [("s1", .ok [("dash", r1)]), ("s2", .ok [("dash", r2)])]).2
        ≠ .error .resolution := by
  have h1 : (resolveLoop []
      [("s1", .ok [("dash", r1)]), ("s2", .ok [("dash", r2)])]).2
      = .ok [("dash", r2)] := rfl
  refine ⟨h1, by decide, ?_⟩
  rw [h1]
  simp

/-- Claim C1 (amended): when two stencils resolve to the same
ResourceID, the aggregation loop raises nothing: it returns a merged
mapping in which the later stencil's resource stands under the shared
id, the earlier one silently dropped. -/
theorem c1_duplicate_overwritten (k1 k2 id : String) (d1 d2 : Dict)
    (r : Resource) (hnd : (dkeys d2).Nodup) (hr : dlookup id d2 = some r) :
    ∃ m : Dict,
      (resolveLoop [] [(k1, .ok d1), (k2, .ok d2)]).2 = .ok m ∧
      dlookup id m = some r :=
  ⟨dupdate (dupdate [] d1) d2, rfl, dlookup_dupdate_of_mem d2 _ id r hnd hr⟩

theorem c1_duplicate_overwritten_witness :
    ∃ m : Dict,
      (resolveLoop [] [("s1", .ok [("dash", r1)]), ("s2", .ok [("dash", r2)])]).2
          = .ok m ∧
      dlookup "dash" m = some r2 :=
  c1_duplicate_overwritten "s1" "s2" "dash" [("dash", r1)] [("dash", r2)] r2
    (by decide) (by decide)

/-- Claim C8: the version command only prints the version string: its
trace is that single print, it exits 0, and no event of it is a
stencil resolution, a state load, a provider mutation, a prompt, a
rendering, or a state push. -/
theorem c8_version_no_core_interaction (v : String) :
    (versionCmd v).1 = [Event.print ("GDBT version " ++ v)] ∧
    (versionCmd v).2 = 0 ∧
    ∀ e ∈ (versionCmd v).1, e.isMutation = false ∧ e.isPush = false ∧
      e ≠ Event.stateLoad ∧ e ≠ Event.prompt ∧
      (∀ k, e ≠ Event.resolve k) ∧ (∀ s, e ≠ Event.render s) := by
  refine ⟨rfl, rfl, ?_⟩
  intro e he
  simp only [versionCmd, List.mem_singleton] at he
  subst he
  exact ⟨rfl, rfl, by simp, by simp, by simp, by simp⟩

theorem c8_version_witness :
    (versionCmd "1.0.0").1 = [Event.print ("GDBT version " ++ "1.0.0")] :=
  (c8_version_no_core_interaction "1.0.0").1

/-- Claim C9: on the same inputs the plan pipeline and the
pre-confirmation apply pipeline are the same function, so they produce
the same desired state, current state, diff and change count. -/
theorem c9_plan_apply_pipelines_agree (env : PipelineEnv) :
    pipelineApply env = pipelinePlan env ∧
    ∀ outP outA : PipeOut, (pipelinePlan env).2 = .ok outP →
      (pipelineApply env).2 = .ok outA →
      outA.desired = outP.desired ∧ outA.current = outP.current ∧
      outA.diff = outP.diff ∧ outA.ocs.length = outP.ocs.length := by
  refine ⟨rfl, ?_⟩
  intro outP outA hP hA
  rw [pipelineApply_eq, hP] at hA
  injection hA with h
  subst h
  exact ⟨rfl, rfl, rfl, rfl⟩

/-- Claim C7: the plan command exits 1 exactly when a domain error is
raised and 0 otherwise; when the computed diff yields zero changes it
reports that the dashboards are up to date and exits 0 without
rendering a change list. -/
theorem c7_plan_exit_codes (env : PipelineEnv) :
    ((planCmd env).2 = 1 ↔ isErr (pipelinePlan env).2 = true) ∧
    ((planCmd env).2 = 0 ↔ isErr (pipelinePlan env).2 = false) ∧
    (∀ out : PipeOut, (pipelinePlan env).2 = .ok out → out.ocs.length = 0 →
      (planCmd env).1 = (pipelinePlan env).1 ++ [Event.print upToDateMsg] ∧
      (planCmd env).2 = 0 ∧
      ∀ s : String, Event.render s ∉ (planCmd env).1) := by
  have hb := pipelinePlan_events env
  rcases hp : pipelinePlan env with ⟨evs, r⟩
  rw [hp] at hb
  rcases r with err | out
  · refine ⟨by simp [planCmd, hp, isErr], by simp [planCmd, hp, isErr], ?_⟩
    intro out h hz
    exact absurd h (by simp)
  · by_cases hz : out.ocs.length = 0
    · refine ⟨by simp [planCmd, hp, hz, isErr],
        by simp [planCmd, hp, hz, isErr], ?_⟩
      intro out2 h2 hz2
      refine ⟨by simp [planCmd, hp, hz], by simp [planCmd, hp, hz], ?_⟩
      intro s hs
      simp only [planCmd, hp, hz, if_pos, List.mem_append,
        List.mem_singleton] at hs
      rcases hs with hs | hs
      · rcases hb _ hs with ⟨k, hk⟩ | hk <;> simp at hk
      · simp at hs
    · refine ⟨by simp [planCmd, hp, hz, isErr],
        by simp [planCmd, hp, hz, isErr], ?_⟩
      intro out2 h2 hz2
      have h3 : out = out2 := by
        have h4 : Except.ok (ε := Err) out = .ok out2 := h2
        injection h4
      subst h3
      exact absurd hz2 hz

theorem c7_plan_exit_codes_witness :
    (planCmd envZero.toPipelineEnv).2 = 0 :=
  ((c7_plan_exit_codes envZero.toPipelineEnv).2.1).mpr rfl

/-- Claim C10: an apply run whose change count is zero returns right
after diffing: its trace is the pipeline trace plus the up-to-date
report, it exits 0, and no event of it is a prompt, a provider
mutation or a state push. -/
theorem c10_zero_change_apply_no_io (env : ApplyEnv) (out : PipeOut)
    (h : (pipelineApply env.toPipelineEnv).2 = .ok out)
    (hz : out.ocs.length = 0) :
    (applyCmd env).1 = (pipelineApply env.toPipelineEnv).1 ++
      [Event.print upToDateMsg] ∧
    (applyCmd env).2 = 0 ∧
    ∀ e ∈ (applyCmd env).1,
      e.isMutation = false ∧ e.isPush = false ∧ e ≠ Event.prompt := by
  have hb := pipelineApply_events_benign env.toPipelineEnv
  rcases hp : pipelineApply env.toPipelineEnv with ⟨evs, r⟩
  rw [hp] at hb h
  have h2 : r = Except.ok out := h
  subst h2
  refine ⟨by simp [applyCmd, hp, hz], by simp [applyCmd, hp, hz], ?_⟩
  intro e he
  simp only [applyCmd, hp, hz, if_pos, List.mem_append,
    List.mem_singleton] at he
  rcases he with he | he
  · exact hb e he
  · subst he
    exact ⟨rfl, rfl, by simp⟩

theorem c10_zero_change_apply_no_io_witness :
    (applyCmd envZero).2 = 0 :=
  (c10_zero_change_apply_no_io envZero outZero rfl rfl).2.1

/-- Claim C3: a domain error raised before the apply pass (during
config loading, stencil loading or resolution, desired-state
construction, state loading, or outcome validation after diffing), or
a declined confirmation, makes the apply command exit 1 with no
provider mutation and no state push in its trace. -/
theorem c3_preapply_errors_no_mutation (env : ApplyEnv)
    (h : isErr (pipelineApply env.toPipelineEnv).2 = true ∨
      (∃ out : PipeOut, (pipelineApply env.toPipelineEnv).2 = .ok out ∧
        out.ocs.length ≠ 0 ∧ env.autoApprove = false ∧
        env.userConfirms = false)) :
    (applyCmd env).2 = 1 ∧
    ∀ e ∈ (applyCmd env).1, e.isMutation = false ∧ e.isPush = false := by
  have hb := pipelineApply_events_benign env.toPipelineEnv
  rcases hp : pipelineApply env.toPipelineEnv with ⟨evs, r⟩
  rw [hp] at hb h
  rcases r with err | out
  · refine ⟨by simp [applyCmd, hp], ?_⟩
    intro e he
    simp only [applyCmd, hp, List.mem_append, List.mem_singleton] at he
    rcases he with he | he
    · exact ⟨(hb e he).1, (hb e he).2.1⟩
    · subst he
      exact ⟨rfl, rfl⟩
  · rcases h with h | ⟨out2, ho, hz, ha, hu⟩
    · simp [isErr] at h
    · have h4 : Except.ok (ε := Err) out = .ok out2 := ho
      injection h4 with h4
      subst h4
      refine ⟨by simp [applyCmd, hp, hz, ha, hu], ?_⟩
      intro e he
      simp [applyCmd, hp, hz, ha, hu] at he
      rcases he with he | he | he | he
      · exact ⟨(hb e he).1, (hb e he).2.1⟩
      · subst he; exact ⟨rfl, rfl⟩
      · subst he; exact ⟨rfl, rfl⟩
      · subst he; exact ⟨rfl, rfl⟩

theorem c3_preapply_errors_no_mutation_witness :
    (applyCmd envPreErr).2 = 1 :=
  (c3_preapply_errors_no_mutation envPreErr (Or.inl rfl)).1

/-- Claim C4: once the apply pass begins, the applied state the pass
computes — partial-apply results included — is handed to the state
push before the command terminates, whatever the per-resource failures
and whatever the push outcome. -/
theorem c4_applied_state_always_pushed (env : ApplyEnv) (out : PipeOut)
    (h : (pipelineApply env.toPipelineEnv).2 = .ok out)
    (hz : out.ocs.length ≠ 0)
    (hc : env.autoApprove = true ∨ env.userConfirms = true) :
    Event.push (planApply env.execOk out.diff).2.1 ∈ (applyCmd env).1 := by
  rcases hp : pipelineApply env.toPipelineEnv with ⟨evs, r⟩
  rw [hp] at h
  have h2 : r = Except.ok out := h
  subst h2
  by_cases ha : env.autoApprove = true
  · rcases hq : env.pushResult with e | u <;>
      simp [applyCmd, hp, hz, ha, afterConfirm, hq]
  · have ha2 : env.autoApprove = false := by
      revert ha
      cases env.autoApprove <;> simp
    have hu : env.userConfirms = true := by
      rcases hc with hc | hc
      · exact absurd hc ha
      · exact hc
    rcases hq : env.pushResult with e | u <;>
      simp [applyCmd, hp, hz, ha2, hu, afterConfirm, hq]

theorem c4_applied_state_always_pushed_witness :
    Event.push (planApply envPartialFail.execOk outTwo.diff).2.1 ∈
      (applyCmd envPartialFail).1 :=
  c4_applied_state_always_pushed envPartialFail outTwo rfl (by decide)
    (Or.inl rfl)

/-- Claim C5: the confirmation is a single decision point strictly
between diff computation and the apply pass: with auto-approve no
prompt ever appears; without auto-approve, on a nonzero change count,
declining exits 1 with no mutation and no push, while confirming puts
exactly one prompt in the trace, after a mutation-free, push-free
prefix and before the apply events; and the apply pass itself never
prompts. -/
theorem c5_confirmation_single_decision_point (env : ApplyEnv) :
    (env.autoApprove = true → Event.prompt ∉ (applyCmd env).1) ∧
    (∀ out : PipeOut, (pipelineApply env.toPipelineEnv).2 = .ok out →
      out.ocs.length ≠ 0 → env.autoApprove = false →
      ((env.userConfirms = false → (applyCmd env).2 = 1 ∧
          ∀ e ∈ (applyCmd env).1, e.isMutation = false ∧ e.isPush = false) ∧
       (env.userConfirms = true → ∃ pre post : List Event,
          (applyCmd env).1 = pre ++ Event.prompt :: post ∧
          (∀ e ∈ pre, e.isMutation = false ∧ e.isPush = false) ∧
          Event.prompt ∉ pre ∧ Event.prompt ∉ post))) ∧
    (∀ okf : String → Bool, ∀ d : List (String × Outcome),
      Event.prompt ∉ (planApply okf d).1) := by
  have hb := pipelineApply_events_benign env.toPipelineEnv
  rcases hp : pipelineApply env.toPipelineEnv with ⟨evs, r⟩
  rw [hp] at hb
  have hnp : Event.prompt ∉ evs := fun hm => (hb _ hm).2.2 rfl
  refine ⟨?_, ?_, planApply_no_prompt⟩
  · intro hauto hmem
    rcases r with err | out
    · simp [applyCmd, hp, hnp] at hmem
    · by_cases hz0 : out.ocs.length = 0
      · simp [applyCmd, hp, hz0, hnp] at hmem
      · have h2 : Event.prompt ∉
            evs ++ [Event.print pendingMsg,
              Event.render (renderDiff out.diff)] := by
          simp [hnp]
        simp only [applyCmd, hp, hz0, hauto, if_neg, if_true,
          ite_false, ite_true] at hmem
        exact afterConfirm_no_prompt env _ out h2 hmem
  · intro out ho hz hfalse
    rcases r with err | out2
    · exact absurd ho (by simp)
    · have h4 : Except.ok (ε := Err) out2 = .ok out := ho
      injection h4 with h4
      subst h4
      constructor
      · intro hu
        refine ⟨by simp [applyCmd, hp, hz, hfalse, hu], ?_⟩
        intro e he
        simp [applyCmd, hp, hz, hfalse, hu] at he
        rcases he with he | he | he | he
        · exact ⟨(hb e he).1, (hb e he).2.1⟩
        · subst he; exact ⟨rfl, rfl⟩
        · subst he; exact ⟨rfl, rfl⟩
        · subst he; exact ⟨rfl, rfl⟩
      · intro hu
        have hpre : ∀ e ∈ evs ++ [Event.print pendingMsg,
            Event.render (renderDiff out2.diff)],
            e.isMutation = false ∧ e.isPush = false := by
          intro e he
          simp only [List.mem_append, List.mem_cons,
            List.mem_singleton, List.not_mem_nil, or_false] at he
          rcases he with he | he | he
          · exact ⟨(hb e he).1, (hb e he).2.1⟩
          · subst he; exact ⟨rfl, rfl⟩
          · subst he; exact ⟨rfl, rfl⟩
        have hpre2 : Event.prompt ∉ evs ++ [Event.print pendingMsg,
            Event.render (renderDiff out2.diff)] := by
          simp [hnp]
        rcases hq : env.pushResult with e | u
        · refine ⟨evs ++ [Event.print pendingMsg,
              Event.render (renderDiff out2.diff)],
            (planApply env.execOk out2.diff).1 ++
              [Event.push (planApply env.execOk out2.diff).2.1,
               Event.print (errMsg e)], ?_, hpre, hpre2, ?_⟩
          · simp [applyCmd, hp, hz, hfalse, hu, afterConfirm, hq]
          · simp [planApply_no_prompt]
        · refine ⟨evs ++ [Event.print pendingMsg,
              Event.render (renderDiff out2.diff)],
            (planApply env.execOk out2.diff).1 ++
              [Event.push (planApply env.execOk out2.diff).2.1,
               Event.print (doneMsg out2.ocs.length)], ?_, hpre, hpre2, ?_⟩
          · simp [applyCmd, hp, hz, hfalse, hu, afterConfirm, hq]
          · simp [planApply_no_prompt]

theorem c5_confirmation_single_decision_point_witness :
    Event.prompt ∉ (applyCmd envTwoCreates).1 :=
  (c5_confirmation_single_decision_point envTwoCreates).1 rfl

/-- Claim C2 (counterexample): an apply run in which one provider call
fails still exits 0: the apply pass reports resource `s.b` as failed,
yet the command completes and exits 0 — the CLI never inspects the
failure list. -/
theorem c2_failure_exits_zero_counterexample :
    (applyCmd envPartialFail).2 = 0 ∧
    (planApply envPartialFail.execOk outTwo.diff).2.2 = ["s.b"] := by
  decide

/-- Claim C2 (amended): the apply exit code is decided solely by raised
errors — a pipeline error, a declined confirmation, or a push failure —
and is entirely independent of which per-resource provider calls fail
during the apply pass. -/
theorem c2_exit_code_ignores_failures (env : ApplyEnv)
    (f g : String → Bool) :
    ((applyCmd env).2 = 1 ↔ applyRaised env = true) ∧
    (applyCmd { env with execOk := f }).2 =
      (applyCmd { env with execOk := g }).2 := by
  rcases hp : pipelineApply env.toPipelineEnv with ⟨evs, r⟩
  rcases r with err | out
  · exact ⟨by simp [applyCmd, hp, applyRaised], by simp [applyCmd, hp]⟩
  · by_cases hz : out.ocs.length = 0
    · exact ⟨by simp [applyCmd, hp, hz, applyRaised],
        by simp [applyCmd, hp, hz]⟩
    · by_cases ha : env.autoApprove = true
      · rcases hq : env.pushResult with e | u
        · exact ⟨by simp [applyCmd, hp, hz, ha, afterConfirm, hq,
              applyRaised, isErr],
            by simp [applyCmd, hp, hz, ha, afterConfirm, hq]⟩
        · exact ⟨by simp [applyCmd, hp, hz, ha, afterConfirm, hq,
              applyRaised, isErr],
            by simp [applyCmd, hp, hz, ha, afterConfirm, hq]⟩
      · have ha2 : env.autoApprove = false := by
          revert ha
          cases env.autoApprove <;> simp
        by_cases hu : env.userConfirms = true
        · rcases hq : env.pushResult with e | u
          · exact ⟨by simp [applyCmd, hp, hz, ha2, hu, afterConfirm, hq,
                applyRaised, isErr],
              by simp [applyCmd, hp, hz, ha2, hu, afterConfirm, hq]⟩
          · exact ⟨by simp [applyCmd, hp, hz, ha2, hu, afterConfirm, hq,
                applyRaised, isErr],
              by simp [applyCmd, hp, hz, ha2, hu, afterConfirm, hq]⟩
        · have hu2 : env.userConfirms = false := by
            revert hu
            cases env.userConfirms <;> simp
          exact ⟨by simp [applyCmd, hp, hz, ha2, hu2, applyRaised],
            by simp [applyCmd, hp, hz, ha2, hu2]⟩

theorem c2_exit_code_ignores_failures_witness :
    ((applyCmd envDecline).2 = 1 ↔ applyRaised envDecline = true) ∧
    (applyCmd { envDecline with execOk := fun _ => true }).2 =
      (applyCmd { envDecline with execOk := fun _ => false }).2 :=
  c2_exit_code_ignores_failures envDecline (fun _ => true) (fun _ => false)

/-- Claim C6 (counterexample): a completed apply run with one failed
resource reports the planned change count 2, although only one resource
was actually modified, and no report of the actual count appears. -/
theorem c6_reported_count_counterexample :
    (applyCmd envPartialFail).2 = 0 ∧
    Event.print (doneMsg 2) ∈ (applyCmd envPartialFail).1 ∧
    modifiedCount envPartialFail.execOk outTwo.diff = 1 ∧
    Event.print (doneMsg (modifiedCount envPartialFail.execOk outTwo.diff))
      ∉ (applyCmd envPartialFail).1 := by
  decide

/-- Claim C6 (amended): the count the completed apply reports is the
planned change count computed before the pass; when no per-resource
failure occurred it equals the number of resources actually modified.
(The elapsed duration printed alongside is wall-clock time, outside
this model.) -/
theorem c6_reported_count_no_failures (env : ApplyEnv) (out : PipeOut)
    (h : (pipelineApply env.toPipelineEnv).2 = .ok out)
    (hz : out.ocs.length ≠ 0)
    (hc : env.autoApprove = true ∨ env.userConfirms = true)
    (hpush : env.pushResult = .ok ())
    (hf : (planApply env.execOk out.diff).2.2 = []) :
    Event.print (doneMsg out.ocs.length) ∈ (applyCmd env).1 ∧
    out.ocs.length = modifiedCount env.execOk out.diff := by
  have hP := h
  rw [pipelineApply_eq] at hP
  have hocs := pipelinePlan_ok_ocs env.toPipelineEnv out hP
  have hcount : out.ocs.length = modifiedCount env.execOk out.diff := by
    rw [hocs, modifiedCount, planApply_no_failures hf]
  refine ⟨?_, hcount⟩
  rcases hp : pipelineApply env.toPipelineEnv with ⟨evs, r⟩
  rw [hp] at h
  have h2 : r = Except.ok out := h
  subst h2
  by_cases ha : env.autoApprove = true
  · simp [applyCmd, hp, hz, ha, afterConfirm, hpush]
  · have ha2 : env.autoApprove = false := by
      revert ha
      cases env.autoApprove <;> simp
    have hu : env.userConfirms = true := by
      rcases hc with hc | hc
      · exact absurd hc ha
      · exact hc
    simp [applyCmd, hp, hz, ha2, hu, afterConfirm, hpush]

theorem c6_reported_count_no_failures_witness :
    Event.print (doneMsg outTwo.ocs.length) ∈ (applyCmd envTwoCreates).1 ∧
    outTwo.ocs.length = modifiedCount envTwoCreates.execOk outTwo.diff :=
  c6_reported_count_no_failures envTwoCreates outTwo rfl (by decide)
    (Or.inl rfl) rfl (by decide)

theorem c9_plan_apply_pipelines_agree_witness :
    outTwo.desired = outTwo.desired ∧ outTwo.current = outTwo.current ∧
    outTwo.diff = outTwo.diff ∧ outTwo.ocs.length = outTwo.ocs.length :=
  (c9_plan_apply_pipelines_agree envTwoCreates.toPipelineEnv).2 outTwo outTwo
    rfl rfl

end GDBT
